import Mathlib

/-!
# Verification of the bully-algorithm repository's message codec

Shallow embedding of `src/message.rs`: the `Message` codec
(`to_u8_vec` / `from_u8_vec`) and the length-prefixed framing layer
(`send_message` / `receive_message`).

Bytes are modelled as `Nat` (values below 256 in every run of the real
program); a Rust `String` is modelled by the list of its UTF-8 bytes, so
the constructible messages are exactly those whose `content` satisfies
`validUtf8`.  Streams are in-memory byte lists read with `Read::read`
cursor semantics (each call fills as many of the requested bytes as the
stream still holds), matching the repository's own `Cursor`-based tests.
-/

namespace Bully

set_option autoImplicit false

/-! ## UTF-8: validity and lossy decoding

`String::from_utf8_lossy` replaces each maximal invalid subpart with
U+FFFD (bytes `EF BF BD`) and otherwise keeps the bytes unchanged.  The
tables below follow the UTF-8 acceptance ranges used by Rust's
`core::str` validation: the leading byte fixes the sequence width, the
second byte has a per-leading-byte admissible range, and the remaining
bytes are plain continuation bytes `80..BF`. -/

/-- Is `b` a UTF-8 continuation byte (`0x80..0xBF`)? -/
def isCont (b : Nat) : Bool := decide (0x80 ≤ b ∧ b ≤ 0xBF)

/-- Width of the UTF-8 sequence announced by leading byte `b0`
(`0` means `b0` is not a valid leading byte). -/
def utf8Width (b0 : Nat) : Nat :=
  if b0 ≤ 0x7F then 1
  else if 0xC2 ≤ b0 ∧ b0 ≤ 0xDF then 2
  else if 0xE0 ≤ b0 ∧ b0 ≤ 0xEF then 3
  else if 0xF0 ≤ b0 ∧ b0 ≤ 0xF4 then 4
  else 0

/-- Lower bound admitted for the second byte of a sequence led by `b0`. -/
def cont2Lo (b0 : Nat) : Nat :=
  if b0 = 0xE0 then 0xA0 else if b0 = 0xF0 then 0x90 else 0x80

/-- Upper bound admitted for the second byte of a sequence led by `b0`. -/
def cont2Hi (b0 : Nat) : Nat :=
  if b0 = 0xED then 0x9F else if b0 = 0xF4 then 0x8F else 0xBF

/-- UTF-8 encoding of U+FFFD, the replacement character. -/
def replacementChar : List Nat := [0xEF, 0xBF, 0xBD]

/-- Does the byte list consist of valid UTF-8 sequences only?  This is the
invariant of the bytes of a Rust `String`. -/
def validUtf8 : List Nat → Bool
  | [] => true
  | b0 :: rest =>
    if utf8Width b0 = 1 then validUtf8 rest
    else if utf8Width b0 = 2 then
      match rest with
      | [] => false
      | b1 :: rest1 => isCont b1 && validUtf8 rest1
    else if utf8Width b0 = 3 then
      match rest with
      | [] => false
      | b1 :: rest1 =>
        if cont2Lo b0 ≤ b1 ∧ b1 ≤ cont2Hi b0 then
          match rest1 with
          | [] => false
          | b2 :: rest2 => isCont b2 && validUtf8 rest2
        else false
    else if utf8Width b0 = 4 then
      match rest with
      | [] => false
      | b1 :: rest1 =>
        if cont2Lo b0 ≤ b1 ∧ b1 ≤ cont2Hi b0 then
          match rest1 with
          | [] => false
          | b2 :: rest2 =>
            if isCont b2 then
              match rest2 with
              | [] => false
              | b3 :: rest3 => isCont b3 && validUtf8 rest3
            else false
        else false
    else false

/-- Fuel-driven worker for `lossyUtf8` (structural recursion on the fuel,
so that concrete inputs evaluate in the kernel).  With `fuel ≥ l.length`
each recursive call keeps the invariant, so the out-of-fuel branch is
never taken. -/
def lossyGo : Nat → List Nat → List Nat
  | _, [] => []
  | 0, _ :: _ => []
  | fuel + 1, b0 :: rest =>
    if utf8Width b0 = 1 then b0 :: lossyGo fuel rest
    else if utf8Width b0 = 2 then
      match rest with
      | [] => replacementChar
      | b1 :: rest1 =>
        if isCont b1 then b0 :: b1 :: lossyGo fuel rest1
        else replacementChar ++ lossyGo fuel (b1 :: rest1)
    else if utf8Width b0 = 3 then
      match rest with
      | [] => replacementChar
      | b1 :: rest1 =>
        if cont2Lo b0 ≤ b1 ∧ b1 ≤ cont2Hi b0 then
          match rest1 with
          | [] => replacementChar
          | b2 :: rest2 =>
            if isCont b2 then b0 :: b1 :: b2 :: lossyGo fuel rest2
            else replacementChar ++ lossyGo fuel (b2 :: rest2)
        else replacementChar ++ lossyGo fuel (b1 :: rest1)
    else if utf8Width b0 = 4 then
      match rest with
      | [] => replacementChar
      | b1 :: rest1 =>
        if cont2Lo b0 ≤ b1 ∧ b1 ≤ cont2Hi b0 then
          match rest1 with
          | [] => replacementChar
          | b2 :: rest2 =>
            if isCont b2 then
              match rest2 with
              | [] => replacementChar
              | b3 :: rest3 =>
                if isCont b3 then b0 :: b1 :: b2 :: b3 :: lossyGo fuel rest3
                else replacementChar ++ lossyGo fuel (b3 :: rest3)
            else replacementChar ++ lossyGo fuel (b2 :: rest2)
        else replacementChar ++ lossyGo fuel (b1 :: rest1)
    else replacementChar ++ lossyGo fuel rest

/-- Byte-level model of Rust's `String::from_utf8_lossy` followed by
taking the bytes of the resulting string: valid sequences are copied,
and each maximal invalid subpart (at least one byte; the longest valid
prefix of a sequence when a check fails mid-sequence) is replaced by
`replacementChar`, resuming at the first unconsumed byte. -/
def lossyUtf8 (l : List Nat) : List Nat := lossyGo l.length l

/-! ## The message data model (`src/message.rs`) -/

/-- `MessageType` from `src/message.rs` (`#[repr(u8)]`, discriminants
0, 1, 2). -/
inductive MessageType where
  | Election
  | Answer
  | Coordinator
deriving DecidableEq

/-- The `u8` discriminant of a `MessageType` (Rust `self.message_type as u8`). -/
def MessageType.tag : MessageType → Nat
  | .Election => 0
  | .Answer => 1
  | .Coordinator => 2

/-- `Message` from `src/message.rs`; `content` is the list of UTF-8 bytes
of the Rust `String`. -/
structure Message where
  message_type : MessageType
  content : List Nat
deriving DecidableEq

/-- Outcome of a fallible Rust call: `Ok`, `Err(e)` (string message), or a
panic (used for the unchecked `inp[0]` index in `from_u8_vec`). -/
inductive DecodeResult where
  | ok (m : Message)
  | err (e : String)
  | panic
deriving DecidableEq

/-- Embedding of `Message::to_u8_vec`: one type-tag byte followed by the
payload bytes.  The Rust signature allows a `TryFromIntError`, but the body
performs no fallible conversion and always returns `Ok`. -/
def to_u8_vec (m : Message) : Except String (List Nat) :=
  .ok (m.message_type.tag :: m.content)

/-- Embedding of `Message::from_u8_vec`: matches `inp[0]` against the tags
0/1/2 (any other value is `Err("unknown message type{tag}")`) and decodes
the remaining bytes with `String::from_utf8_lossy`.  On the empty vector the
Rust code's `inp[0]` index panics, modelled by `.panic`. -/
def from_u8_vec (inp : List Nat) : DecodeResult :=
  match inp with
  | [] => .panic
  | b :: rest =>
    match b with
    | 0 => .ok ⟨.Election, lossyUtf8 rest⟩
    | 1 => .ok ⟨.Answer, lossyUtf8 rest⟩
    | 2 => .ok ⟨.Coordinator, lossyUtf8 rest⟩
    | _ => .err ("unknown message type" ++ toString b)

/-! ## Framing (`send_message` / `receive_message`) -/

/-- `u64::to_be_bytes`: the eight big-endian base-256 digits of `n`. -/
def u64_to_be_bytes (n : Nat) : List Nat :=
  [n / 2 ^ 56 % 256, n / 2 ^ 48 % 256, n / 2 ^ 40 % 256, n / 2 ^ 32 % 256,
   n / 2 ^ 24 % 256, n / 2 ^ 16 % 256, n / 2 ^ 8 % 256, n % 256]

/-- `u64::from_be_bytes` on a byte buffer (each cell a `u8`, hence the
`% 256`). -/
def u64_from_be_bytes (l : List Nat) : Nat :=
  l.foldl (fun acc b => acc * 256 + b % 256) 0

/-- Embedding of `Message::send_message` with the writer taken to be an
in-memory buffer (as in the repository's `Cursor` test): on success the
result is the byte sequence written to the stream, namely the 8-byte
big-endian length of the encoded body followed by the body.  The
`u64::try_from(usize)` bound check of the Rust code is kept explicit. -/
def send_message (msg : Message) : Except String (List Nat) :=
  match to_u8_vec msg with
  | .error e => .error e
  | .ok u8_vec =>
    if u8_vec.length < 2 ^ 64 then
      .ok (u64_to_be_bytes u8_vec.length ++ u8_vec)
    else
      .error "out of range integral type conversion attempted"

/-- Steps 1–2 of `Message::receive_message`: one `Read::read` call into a
zero-initialised 8-byte buffer (cursor semantics: it fills
`min 8 s.length` bytes), an error only when zero bytes were read, and the
whole buffer — read bytes plus untouched zero suffix — interpreted as a
big-endian `u64`. -/
def recv_len_stage (s : List Nat) : Except String Nat :=
  let chunk := s.take 8
  if chunk.length = 0 then .error "read nothing from the stream"
  else .ok (u64_from_be_bytes (chunk ++ List.replicate (8 - chunk.length) 0))

/-- Embedding of `Message::receive_message` on an in-memory stream `s`:
after the length stage, one `Read::read` call into a zero-initialised
buffer of `msg_len` bytes (filling `min msg_len` remaining bytes), an
error only when that read returns zero bytes, and `from_u8_vec` applied
to the whole buffer (read bytes plus untouched zero suffix). -/
def receive_message (s : List Nat) : DecodeResult :=
  match recv_len_stage s with
  | .error e => .err e
  | .ok msg_len =>
    let s1 := s.drop 8
    let chunk2 := s1.take msg_len
    if chunk2.length = 0 then .err "read nothing from the stream"
    else from_u8_vec (chunk2 ++ List.replicate (msg_len - chunk2.length) 0)

/-! ## UTF-8 lemmas -/

/-- On valid UTF-8 input (with enough fuel), lossy decoding copies the
bytes unchanged. -/
theorem lossyGo_of_valid :
    ∀ (fuel : Nat) (l : List Nat), l.length ≤ fuel → validUtf8 l = true →
      lossyGo fuel l = l := by
  intro fuel
  induction fuel with
  | zero =>
    intro l hl _
    cases l with
    | nil => rfl
    | cons b rest => simp at hl
  | succ fuel ih =>
    intro l hl hv
    cases l with
    | nil => rfl
    | cons b0 rest =>
      simp only [List.length_cons] at hl
      rw [validUtf8.eq_def] at hv
      simp only [lossyGo]
      by_cases h1 : utf8Width b0 = 1
      · simp only [if_pos h1] at hv ⊢
        rw [ih rest (by omega) hv]
      · by_cases h2 : utf8Width b0 = 2
        · simp only [if_neg h1, if_pos h2] at hv ⊢
          cases rest with
          | nil => simp at hv
          | cons b1 rest1 =>
            simp only [List.length_cons] at hl
            simp only [Bool.and_eq_true] at hv
            simp [hv.1]
            exact ih rest1 (by omega) hv.2
        · by_cases h3 : utf8Width b0 = 3
          · simp only [if_neg h1, if_neg h2, if_pos h3] at hv ⊢
            cases rest with
            | nil => simp at hv
            | cons b1 rest1 =>
              simp only [List.length_cons] at hl
              by_cases hr : cont2Lo b0 ≤ b1 ∧ b1 ≤ cont2Hi b0
              · simp only [if_pos hr] at hv ⊢
                cases rest1 with
                | nil => simp at hv
                | cons b2 rest2 =>
                  simp only [List.length_cons] at hl
                  simp only [Bool.and_eq_true] at hv
                  simp [hv.1]
                  exact ih rest2 (by omega) hv.2
              · simp only [if_neg hr] at hv
                simp at hv
          · by_cases h4 : utf8Width b0 = 4
            · simp only [if_neg h1, if_neg h2, if_neg h3, if_pos h4] at hv ⊢
              cases rest with
              | nil => simp at hv
              | cons b1 rest1 =>
                simp only [List.length_cons] at hl
                by_cases hr : cont2Lo b0 ≤ b1 ∧ b1 ≤ cont2Hi b0
                · simp only [if_pos hr] at hv ⊢
                  cases rest1 with
                  | nil => simp at hv
                  | cons b2 rest2 =>
                    simp only [List.length_cons] at hl
                    by_cases hc2 : isCont b2 = true
                    · simp [hc2] at hv
                      simp only [hc2]
                      cases rest2 with
                      | nil => simp at hv
                      | cons b3 rest3 =>
                        simp only [List.length_cons] at hl
                        simp only [Bool.and_eq_true] at hv
                        simp [hv.1]
                        exact ih rest3 (by omega) hv.2
                    · simp only [if_neg hc2] at hv
                      simp at hv
                · simp only [if_neg hr] at hv
                  simp at hv
            · simp only [if_neg h1, if_neg h2, if_neg h3, if_neg h4] at hv
              simp at hv

/-- The replacement character is itself valid UTF-8. -/
theorem validUtf8_replacementChar : validUtf8 replacementChar = true := by decide

/-- Prepending the replacement character preserves UTF-8 validity. -/
theorem validUtf8_replacementChar_append (Y : List Nat) :
    validUtf8 (replacementChar ++ Y) = validUtf8 Y := by
  show validUtf8 (0xEF :: 0xBF :: 0xBD :: Y) = validUtf8 Y
  rw [validUtf8.eq_def]
  simp [utf8Width, cont2Lo, cont2Hi, isCont]

/-- Unfolding: a 1-byte sequence followed by a valid tail. -/
theorem validUtf8_cons1 (b0 : Nat) (rest : List Nat) (h1 : utf8Width b0 = 1) :
    validUtf8 (b0 :: rest) = validUtf8 rest := by
  rw [validUtf8.eq_def]
  simp [h1]

/-- Unfolding: a 2-byte sequence followed by a valid tail. -/
theorem validUtf8_cons2 (b0 b1 : Nat) (rest1 : List Nat)
    (h2 : utf8Width b0 = 2) (hc : isCont b1 = true) :
    validUtf8 (b0 :: b1 :: rest1) = validUtf8 rest1 := by
  rw [validUtf8.eq_def]
  have h1 : ¬ utf8Width b0 = 1 := by omega
  simp [h1, h2, hc]

/-- Unfolding: a 3-byte sequence followed by a valid tail. -/
theorem validUtf8_cons3 (b0 b1 b2 : Nat) (rest2 : List Nat)
    (h3 : utf8Width b0 = 3) (hr : cont2Lo b0 ≤ b1 ∧ b1 ≤ cont2Hi b0)
    (hc : isCont b2 = true) :
    validUtf8 (b0 :: b1 :: b2 :: rest2) = validUtf8 rest2 := by
  rw [validUtf8.eq_def]
  have h1 : ¬ utf8Width b0 = 1 := by omega
  have h2 : ¬ utf8Width b0 = 2 := by omega
  simp [h1, h2, h3, hr, hc]

/-- Unfolding: a 4-byte sequence followed by a valid tail. -/
theorem validUtf8_cons4 (b0 b1 b2 b3 : Nat) (rest3 : List Nat)
    (h4 : utf8Width b0 = 4) (hr : cont2Lo b0 ≤ b1 ∧ b1 ≤ cont2Hi b0)
    (hc2 : isCont b2 = true) (hc3 : isCont b3 = true) :
    validUtf8 (b0 :: b1 :: b2 :: b3 :: rest3) = validUtf8 rest3 := by
  rw [validUtf8.eq_def]
  have h1 : ¬ utf8Width b0 = 1 := by omega
  have h2 : ¬ utf8Width b0 = 2 := by omega
  have h3 : ¬ utf8Width b0 = 3 := by omega
  simp [h1, h2, h3, h4, hr, hc2, hc3]

/-- The output of lossy decoding is always valid UTF-8. -/
theorem validUtf8_lossyGo :
    ∀ (fuel : Nat) (l : List Nat), l.length ≤ fuel →
      validUtf8 (lossyGo fuel l) = true := by
  intro fuel
  induction fuel with
  | zero =>
    intro l hl
    cases l with
    | nil => rfl
    | cons b rest => simp at hl
  | succ fuel ih =>
    intro l hl
    cases l with
    | nil => rfl
    | cons b0 rest =>
      simp only [List.length_cons] at hl
      simp only [lossyGo]
      by_cases h1 : utf8Width b0 = 1
      · simp only [if_pos h1]
        rw [validUtf8.eq_def]
        simp only [if_pos h1]
        exact ih rest (by omega)
      · by_cases h2 : utf8Width b0 = 2
        · simp only [if_neg h1, if_pos h2]
          cases rest with
          | nil => exact validUtf8_replacementChar
          | cons b1 rest1 =>
            simp only [List.length_cons] at hl
            by_cases hc : isCont b1 = true
            · simp only []
              rw [if_pos hc]
              rw [validUtf8_cons2 b0 b1 _ h2 hc]
              exact ih rest1 (by omega)
            · simp only [if_neg hc]
              rw [validUtf8_replacementChar_append]
              exact ih (b1 :: rest1) (by simp; omega)
        · by_cases h3 : utf8Width b0 = 3
          · simp only [if_neg h1, if_neg h2, if_pos h3]
            cases rest with
            | nil => exact validUtf8_replacementChar
            | cons b1 rest1 =>
              simp only [List.length_cons] at hl
              by_cases hr : cont2Lo b0 ≤ b1 ∧ b1 ≤ cont2Hi b0
              · simp only [if_pos hr]
                cases rest1 with
                | nil => exact validUtf8_replacementChar
                | cons b2 rest2 =>
                  simp only [List.length_cons] at hl
                  by_cases hc2 : isCont b2 = true
                  · simp only []
                    rw [if_pos hc2]
                    rw [validUtf8_cons3 b0 b1 b2 _ h3 hr hc2]
                    exact ih rest2 (by omega)
                  · simp only [if_neg hc2]
                    rw [validUtf8_replacementChar_append]
                    exact ih (b2 :: rest2) (by simp; omega)
              · simp only [if_neg hr]
                rw [validUtf8_replacementChar_append]
                exact ih (b1 :: rest1) (by simp; omega)
          · by_cases h4 : utf8Width b0 = 4
            · simp only [if_neg h1, if_neg h2, if_neg h3, if_pos h4]
              cases rest with
              | nil => exact validUtf8_replacementChar
              | cons b1 rest1 =>
                simp only [List.length_cons] at hl
                by_cases hr : cont2Lo b0 ≤ b1 ∧ b1 ≤ cont2Hi b0
                · simp only [if_pos hr]
                  cases rest1 with
                  | nil => exact validUtf8_replacementChar
                  | cons b2 rest2 =>
                    simp only [List.length_cons] at hl
                    by_cases hc2 : isCont b2 = true
                    · simp only []
                      rw [if_pos hc2]
                      cases rest2 with
                      | nil => exact validUtf8_replacementChar
                      | cons b3 rest3 =>
                        simp only [List.length_cons] at hl
                        by_cases hc3 : isCont b3 = true
                        · simp only []
                          rw [if_pos hc3]
                          rw [validUtf8_cons4 b0 b1 b2 b3 _ h4 hr hc2 hc3]
                          exact ih rest3 (by omega)
                        · simp only []
                          rw [if_neg hc3]
                          rw [validUtf8_replacementChar_append]
                          exact ih (b3 :: rest3) (by simp; omega)
                    · simp only []
                      rw [if_neg hc2]
                      rw [validUtf8_replacementChar_append]
                      exact ih (b2 :: rest2) (by simp; omega)
                · simp only [if_neg hr]
                  rw [validUtf8_replacementChar_append]
                  exact ih (b1 :: rest1) (by simp; omega)
            · simp only [if_neg h1, if_neg h2, if_neg h3, if_neg h4]
              rw [validUtf8_replacementChar_append]
              exact ih rest (by omega)

/-- `from_utf8_lossy` is the identity on the bytes of a valid string. -/
theorem lossyUtf8_of_valid (l : List Nat) (h : validUtf8 l = true) :
    lossyUtf8 l = l :=
  lossyGo_of_valid l.length l le_rfl h

/-- `from_utf8_lossy` always yields (the bytes of) a valid string. -/
theorem validUtf8_lossyUtf8 (l : List Nat) : validUtf8 (lossyUtf8 l) = true :=
  validUtf8_lossyGo l.length l le_rfl

/-- Lossy UTF-8 normalisation is idempotent. -/
theorem lossyUtf8_idem (l : List Nat) :
    lossyUtf8 (lossyUtf8 l) = lossyUtf8 l :=
  lossyUtf8_of_valid _ (validUtf8_lossyUtf8 l)

/-! ## Arithmetic lemmas for the 8-byte length prefix -/

/-- The big-endian encoding of a `u64` is 8 bytes long. -/
theorem u64_to_be_bytes_length (n : Nat) : (u64_to_be_bytes n).length = 8 := rfl

set_option maxHeartbeats 1000000 in
/-- Reading back the big-endian bytes of `n < 2^64` recovers `n`. -/
theorem u64_from_be_bytes_to_be_bytes (n : Nat) (h : n < 2 ^ 64) :
    u64_from_be_bytes (u64_to_be_bytes n) = n := by
  simp only [u64_to_be_bytes, u64_from_be_bytes]
  norm_num [List.foldl]
  omega

/-! ## Claim theorems -/

/-- **C9** — `from_u8_vec` is not total on its input type: on the empty byte
vector it neither returns a message nor an `Err`, but panics (the Rust code
indexes `inp[0]` without a length check). -/
theorem from_u8_vec_nil_panics : from_u8_vec [] = DecodeResult.panic := rfl

/-- **C5** — decoding maps leading tag 0 to `Election`, 1 to `Answer`, 2 to
`Coordinator`; every other tag value `t` fails with the unknown-message-type
error naming `t`, and no message is returned. -/
theorem from_u8_vec_tag_cases (rest : List Nat) (t : Nat) (h : 3 ≤ t) :
    from_u8_vec (0 :: rest) = .ok ⟨.Election, lossyUtf8 rest⟩ ∧
    from_u8_vec (1 :: rest) = .ok ⟨.Answer, lossyUtf8 rest⟩ ∧
    from_u8_vec (2 :: rest) = .ok ⟨.Coordinator, lossyUtf8 rest⟩ ∧
    from_u8_vec (t :: rest) = .err ("unknown message type" ++ toString t) := by
  refine ⟨rfl, rfl, rfl, ?_⟩
  obtain ⟨n, rfl⟩ : ∃ n, t = n + 3 := ⟨t - 3, by omega⟩
  rfl

/-- Witness for **C5** at `rest = []`, `t = 3`. -/
theorem from_u8_vec_tag_cases_witness :
    3 ≤ 3 ∧
    (from_u8_vec [0] = .ok ⟨.Election, []⟩ ∧
      from_u8_vec [1] = .ok ⟨.Answer, []⟩ ∧
      from_u8_vec [2] = .ok ⟨.Coordinator, []⟩ ∧
      from_u8_vec [3] = .err ("unknown message type" ++ toString 3)) :=
  ⟨le_refl 3, from_u8_vec_tag_cases [] 3 (le_refl 3)⟩

/-- **C6** — with a valid leading tag (0, 1 or 2), `from_u8_vec` never fails
because of the payload bytes: the bytes after the tag are decoded as UTF-8
with lossy substitution and a message is always returned. -/
theorem from_u8_vec_payload_never_fails (b : Nat) (rest : List Nat) (h : b < 3) :
    from_u8_vec (b :: rest) =
      .ok ⟨if b = 0 then .Election else if b = 1 then .Answer else .Coordinator,
        lossyUtf8 rest⟩ := by
  interval_cases b <;> rfl

/-- Witness for **C6** at tag 0 with an invalid-UTF-8 payload byte `0xFF`,
which is replaced by U+FFFD rather than rejected. -/
theorem from_u8_vec_payload_never_fails_witness :
    0 < 3 ∧ from_u8_vec [0, 0xFF] = .ok ⟨.Election, [0xEF, 0xBF, 0xBD]⟩ :=
  ⟨by omega, from_u8_vec_payload_never_fails 0 [0xFF] (by omega)⟩

/-- **C4** — encoding produces exactly one type-tag byte followed by the
payload bytes, and `send_message` writes the 8-byte big-endian length `N` of
that body first, then the body: `[8-byte BE N][1-byte tag][N-1 payload bytes]`. -/
theorem send_message_wire_format (m : Message)
    (h : m.content.length + 1 < 2 ^ 64) :
    to_u8_vec m = .ok (m.message_type.tag :: m.content) ∧
    (u64_to_be_bytes (m.content.length + 1)).length = 8 ∧
    send_message m =
      .ok (u64_to_be_bytes (m.content.length + 1) ++
        m.message_type.tag :: m.content) := by
  refine ⟨rfl, rfl, ?_⟩
  simp [send_message, to_u8_vec, h]
  omega

/-- Witness for **C4** at `Answer` with payload bytes `"hi"`. -/
theorem send_message_wire_format_witness :
    ([104, 105] : List Nat).length + 1 < 2 ^ 64 ∧
    (to_u8_vec ⟨.Answer, [104, 105]⟩ = .ok (MessageType.Answer.tag :: [104, 105]) ∧
      (u64_to_be_bytes (([104, 105] : List Nat).length + 1)).length = 8 ∧
      send_message ⟨.Answer, [104, 105]⟩ =
        .ok (u64_to_be_bytes (([104, 105] : List Nat).length + 1) ++
          MessageType.Answer.tag :: [104, 105])) :=
  ⟨by norm_num, send_message_wire_format ⟨.Answer, [104, 105]⟩ (by norm_num)⟩

/-- **C10** — `receive_message` does not verify that the length-prefix read
filled all 8 bytes: when the first read returns between 1 and 7 bytes, no
error is raised and the zero-initialised remainder of the 8-byte buffer is
interpreted as part of the big-endian length. -/
theorem recv_len_stage_partial (s : List Nat) (h1 : 1 ≤ s.length)
    (h2 : s.length < 8) :
    recv_len_stage s =
      .ok (u64_from_be_bytes (s ++ List.replicate (8 - s.length) 0)) := by
  have ht : s.take 8 = s := List.take_of_length_le (by omega)
  have hz : ¬ s.length = 0 := by omega
  simp [recv_len_stage, ht, hz]

/-- Witness for **C10**: seven delivered bytes of an 8-byte length prefix
are decoded as the (wrong) length 256 instead of being treated as an error. -/
theorem recv_len_stage_partial_witness :
    1 ≤ ([0, 0, 0, 0, 0, 0, 1] : List Nat).length ∧
    ([0, 0, 0, 0, 0, 0, 1] : List Nat).length < 8 ∧
    recv_len_stage [0, 0, 0, 0, 0, 0, 1] = .ok 256 :=
  ⟨by norm_num, by norm_num,
    recv_len_stage_partial [0, 0, 0, 0, 0, 0, 1] (by norm_num) (by norm_num)⟩

/-- **C2** (behaviour of the code at the claim's failing input) — on a stream
whose length prefix declares 5 body bytes but which closes after delivering
only 3 (`[tag 0, 'h', 'i']`), `receive_message` does not fail with a
truncated-message error: the single short read leaves the zero-initialised
remainder of the body buffer in place and the zero-padded buffer is decoded
as a message with two spurious NUL payload bytes. -/
theorem receive_message_truncated_body :
    receive_message (u64_to_be_bytes 5 ++ [0, 104, 105]) =
      .ok ⟨.Election, [104, 105, 0, 0]⟩ := by decide

/-- **C7** — the length-prefix read uses an 8-byte buffer and, when at least
8 bytes are available, consumes exactly the first 8 bytes of the stream; a
stream yielding zero bytes for that read makes `receive_message` fail with
the stream-closed error (`"read nothing from the stream"`) rather than
return a message. -/
theorem receive_message_len_prefix (s : List Nat) (h : 8 ≤ s.length) :
    receive_message [] = .err "read nothing from the stream" ∧
    recv_len_stage s = .ok (u64_from_be_bytes (s.take 8)) := by
  refine ⟨rfl, ?_⟩
  have hlen : (s.take 8).length = 8 := by
    rw [List.length_take]; omega
  simp [recv_len_stage, hlen]

/-- Witness for **C7** at the 8-byte stream `[0,0,0,0,0,0,0,7]`. -/
theorem receive_message_len_prefix_witness :
    8 ≤ ([0, 0, 0, 0, 0, 0, 0, 7] : List Nat).length ∧
    (receive_message [] = .err "read nothing from the stream" ∧
      recv_len_stage [0, 0, 0, 0, 0, 0, 0, 7] =
        .ok (u64_from_be_bytes (([0, 0, 0, 0, 0, 0, 0, 7] : List Nat).take 8))) :=
  ⟨by norm_num, receive_message_len_prefix [0, 0, 0, 0, 0, 0, 0, 7] (by norm_num)⟩

/-- **C1** — a stream containing exactly the bytes written by
`send_message m` yields, through `receive_message`, a message equal to `m`,
for every constructible message (payload the bytes of a Rust `String`,
i.e. `validUtf8`), including empty payloads and payloads with multi-byte
UTF-8 characters. -/
theorem receive_message_send_message (m : Message) (bs : List Nat)
    (hv : validUtf8 m.content = true)
    (hs : send_message m = .ok bs) :
    receive_message bs = .ok m := by
  rcases m with ⟨mt, content⟩
  simp only [send_message, to_u8_vec] at hs
  split at hs
  case isFalse => simp at hs
  case isTrue hN =>
    rw [Except.ok.injEq] at hs
    subst hs
    simp only [List.length_cons] at hN ⊢
    have hv' : validUtf8 content = true := hv
    have hN' : content.length + 1 < 2 ^ 64 := by simpa using hN
    have h8 : (u64_to_be_bytes (content.length + 1)).length = 8 :=
      u64_to_be_bytes_length _
    have htake :
        (u64_to_be_bytes (content.length + 1) ++ mt.tag :: content).take 8 =
          u64_to_be_bytes (content.length + 1) := by
      rw [← h8]
      exact List.take_left _ _
    have hdrop :
        (u64_to_be_bytes (content.length + 1) ++ mt.tag :: content).drop 8 =
          mt.tag :: content := by
      rw [← h8]
      exact List.drop_left _ _
    have hlp :
        recv_len_stage (u64_to_be_bytes (content.length + 1) ++
          mt.tag :: content) = .ok (content.length + 1) := by
      simp [recv_len_stage, htake, h8,
        u64_from_be_bytes_to_be_bytes _ hN']
    have htake2 : (mt.tag :: content).take (content.length + 1) =
        mt.tag :: content :=
      List.take_of_length_le (by simp)
    simp only [receive_message, hlp, hdrop, htake2]
    simp only [List.length_cons, Nat.sub_self, List.replicate,
      List.append_nil]
    rw [if_neg (by omega)]
    cases mt <;>
      simp [from_u8_vec, MessageType.tag, lossyUtf8_of_valid content hv']

/-- Witness for **C1**: an `Election` message whose payload is the three
UTF-8 bytes of a CJK character, and an `Answer` message with empty payload. -/
theorem receive_message_send_message_witness :
    (validUtf8 ([0xE6, 0x97, 0xA5] : List Nat) = true ∧
      send_message ⟨.Election, [0xE6, 0x97, 0xA5]⟩ =
        .ok (u64_to_be_bytes 4 ++ [0, 0xE6, 0x97, 0xA5]) ∧
      receive_message (u64_to_be_bytes 4 ++ [0, 0xE6, 0x97, 0xA5]) =
        .ok ⟨.Election, [0xE6, 0x97, 0xA5]⟩) ∧
    (validUtf8 ([] : List Nat) = true ∧
      send_message ⟨.Answer, []⟩ = .ok (u64_to_be_bytes 1 ++ [1]) ∧
      receive_message (u64_to_be_bytes 1 ++ [1]) = .ok ⟨.Answer, []⟩) :=
  ⟨⟨by decide, rfl,
      receive_message_send_message ⟨.Election, [0xE6, 0x97, 0xA5]⟩ _
        (by decide) rfl⟩,
    ⟨by decide, rfl,
      receive_message_send_message ⟨.Answer, []⟩ _ (by decide) rfl⟩⟩

/-- **C3** — `from_u8_vec ∘ to_u8_vec` is the identity on every
constructible message (payload valid UTF-8, so the round trip is strict),
and decode-then-encode is idempotent: whenever a byte vector decodes
successfully, re-encoding the decoded message reproduces the
lossily-normalised bytes exactly, and those bytes decode back to the same
message. -/
theorem codec_round_trip (m m' : Message) (t : Nat) (rest bs bs' : List Nat)
    (hv : validUtf8 m.content = true)
    (he : to_u8_vec m = .ok bs)
    (hd : from_u8_vec (t :: rest) = .ok m')
    (he' : to_u8_vec m' = .ok bs') :
    from_u8_vec bs = .ok m ∧ bs' = t :: lossyUtf8 rest ∧
    from_u8_vec bs' = .ok m' := by
  rcases m with ⟨mt, content⟩
  simp only [to_u8_vec, Except.ok.injEq] at he he'
  subst he
  refine ⟨?_, ?_⟩
  · cases mt <;>
      simp [from_u8_vec, MessageType.tag, lossyUtf8_of_valid content hv]
  · rcases t with _ | _ | _ | n
    · simp only [from_u8_vec, DecodeResult.ok.injEq] at hd
      subst hd
      subst he'
      exact ⟨rfl, by simp [from_u8_vec, MessageType.tag, lossyUtf8_idem]⟩
    · simp only [from_u8_vec, DecodeResult.ok.injEq] at hd
      subst hd
      subst he'
      exact ⟨rfl, by simp [from_u8_vec, MessageType.tag, lossyUtf8_idem]⟩
    · simp only [from_u8_vec, DecodeResult.ok.injEq] at hd
      subst hd
      subst he'
      exact ⟨rfl, by simp [from_u8_vec, MessageType.tag, lossyUtf8_idem]⟩
    · have hrfl : from_u8_vec ((n + 3) :: rest) =
          .err ("unknown message type" ++ toString (n + 3)) := rfl
      rw [hrfl] at hd
      simp at hd

/-- Witness for **C3**: round trip of a `Coordinator` message with a
multi-byte payload, and idempotent normalisation of an invalid payload
byte `0xFF` decoded under tag 1. -/
theorem codec_round_trip_witness :
    validUtf8 ([0xE6, 0x97, 0xA5] : List Nat) = true ∧
    to_u8_vec ⟨.Coordinator, [0xE6, 0x97, 0xA5]⟩ = .ok [2, 0xE6, 0x97, 0xA5] ∧
    from_u8_vec [1, 0xFF] = .ok ⟨.Answer, [0xEF, 0xBF, 0xBD]⟩ ∧
    to_u8_vec ⟨.Answer, [0xEF, 0xBF, 0xBD]⟩ = .ok [1, 0xEF, 0xBF, 0xBD] ∧
    (from_u8_vec [2, 0xE6, 0x97, 0xA5] = .ok ⟨.Coordinator, [0xE6, 0x97, 0xA5]⟩ ∧
      [1, 0xEF, 0xBF, 0xBD] = 1 :: lossyUtf8 [0xFF] ∧
      from_u8_vec [1, 0xEF, 0xBF, 0xBD] = .ok ⟨.Answer, [0xEF, 0xBF, 0xBD]⟩) :=
  ⟨by decide, rfl, by decide, rfl,
    codec_round_trip ⟨.Coordinator, [0xE6, 0x97, 0xA5]⟩
      ⟨.Answer, [0xEF, 0xBF, 0xBD]⟩ 1 [0xFF]
      [2, 0xE6, 0x97, 0xA5] [1, 0xEF, 0xBF, 0xBD]
      (by decide) rfl (by decide) rfl⟩

/-! Sanity checks of the embedding on the repository's own test vector
("this is an election message" round-trips through the framed codec). -/

example : from_u8_vec [0, 104, 105] = .ok ⟨.Election, [104, 105]⟩ := by decide

example : lossyUtf8 [0xFF] = [0xEF, 0xBF, 0xBD] := by decide

example : validUtf8 [0xE6, 0x97, 0xA5] = true := by decide

example :
    receive_message (u64_to_be_bytes 4 ++ [0, 104, 105, 33]) =
      .ok ⟨.Election, [104, 105, 33]⟩ := by decide

end Bully
